import Mathlib

/-!
Verification of the hdump heap-dump decoder (src/main.go) against its
natural-language specification.

The Go source is shallowly embedded: the sequential byte source
(`io.ByteReader`) becomes an explicit byte list that every reader threads
through, so a reader of result type `A` becomes a function
`Src → Except Err (A × Src)`.  Go's `(value, err)` returns with the
pervasive `if err != nil { return nil, err }` pattern become the
short-circuiting sequencing combinator `rbind`.  Machine integers are
modelled as `Nat` (for `uint64` values, which `binary.ReadUvarint`
produces below `2^64` by construction) and as `Int` via the two's
complement conversion `toInt64` where the Go code converts a `uint64` to
the signed platform-word types `fieldKind`/`status` (both `type ... int`).
`time.Unix(sec, nsec)` is modelled as the pair `(sec, nsec)`.
-/

namespace Hdump

/-- Error taxonomy of the decoder.  `truncated` stands for Go's
`io.EOF`/`io.ErrUnexpectedEOF` returned when the source is exhausted
mid-primitive, `overflow` for `binary.ReadUvarint`'s
"varint overflows a 64-bit integer" error, and `badMagic` for
`readHeader`'s `errors.New("invalid heapdump")`. -/
inductive Err where
  | truncated
  | overflow
  | badMagic
deriving DecidableEq, Repr

/-- A sequential byte source: the list of bytes not yet consumed. -/
abbrev Src := List Nat

-- Equality of decode results is decidable (used to settle concrete instances).
deriving instance DecidableEq for Except

/-- Go's conversion of a `uint64` value (below `2^64`) to a signed 64-bit
integer (`int` on a 64-bit platform): two's complement wrap-around. -/
def toInt64 (n : Nat) : Int :=
  if n < 2 ^ 63 then (n : Int) else (n : Int) - 2 ^ 64

/-- Sequencing of two reads with error short-circuiting: the embedding of
Go's `v, err := read...(r); if err != nil { return nil, err }` pattern. -/
def rbind (m : Src → Except Err (α × Src)) (k : α → Src → Except Err (β × Src)) :
    Src → Except Err (β × Src) := fun s =>
  match m s with
  | .error e => .error e
  | .ok (a, s1) => k a s1

/-- A read that consumes nothing and succeeds: the final
`return &record{...}, nil` of each decoder. -/
def rret (a : α) : Src → Except Err (α × Src) := fun s => .ok (a, s)

/-- The loop body of `encoding/binary.ReadUvarint` (little-endian base-128
varint, at most `MaxVarintLen64 = 10` bytes).  `fuel` is the number of
loop iterations left (`10 - i` in the Go loop), `x` the accumulator and
`sh` the current shift `s`.  Reaching `fuel = 0` is the loop falling
through after 10 iterations, which returns the overflow error; a byte
with the high bit clear terminates, and on the 10th byte a terminating
byte above 1 would overflow 64 bits.  `b % 0x80` renders `b & 0x7f`, and
`% 2 ^ 64` renders `uint64` wrap-around. -/
def readUvarintLoop : Nat → Nat → Nat → Src → Except Err (Nat × Src)
  | 0, _, _, _ => .error .overflow
  | _ + 1, _, _, [] => .error .truncated
  | fuel + 1, x, sh, b :: rest =>
    if b < 0x80 then
      if fuel = 0 ∧ 1 < b then .error .overflow
      else .ok ((x ||| (b <<< sh)) % 2 ^ 64, rest)
    else readUvarintLoop fuel ((x ||| ((b % 0x80) <<< sh)) % 2 ^ 64) (sh + 7) rest

/-- `encoding/binary.ReadUvarint`. -/
def readUvarint : Src → Except Err (Nat × Src) := readUvarintLoop 10 0 0

/-- `io.ReadFull` into a buffer of `n` bytes: reads exactly `n` bytes, or
fails if fewer are available. -/
def readFull (n : Nat) : Src → Except Err (List Nat × Src) := fun s =>
  if n ≤ s.length then .ok (s.take n, s.drop n) else .error .truncated

/-- `readString` (src/main.go:62): a uvarint length `nbytes` followed by
exactly that many raw bytes.  Go strings are byte strings, so the result
is the list of bytes read. -/
def readString : Src → Except Err (List Nat × Src) :=
  rbind readUvarint fun nbytes =>
  rbind (readFull nbytes) fun buf =>
  rret buf

/-- The magic header constant `"go1.4 heap dump\n"` (16 bytes). -/
def header : List Nat :=
  [0x67, 0x6f, 0x31, 0x2e, 0x34, 0x20, 0x68, 0x65, 0x61, 0x70, 0x20,
   0x64, 0x75, 0x6d, 0x70, 0x0a]

/-- `readHeader` (src/main.go:51).  Faithful to the source: when
`io.ReadFull` cannot read all 16 header bytes it consumes what is there
and the function returns `nil`, i.e. success; only a fully read,
mismatching header yields the error. -/
def readHeader : Src → Except Err (Unit × Src) := fun s =>
  if s.length < header.length then .ok ((), s.drop header.length)
  else if s.take header.length ≠ header then .error .badMagic
  else .ok ((), s.drop header.length)

/-- A `(kind, offset)` entry of a field list (src/main.go:16).  The Go
field types are `kind fieldKind` (a signed `int`, filled via the
conversion `fieldKind(t)` from the decoded uvarint) and `ptr uint64`. -/
structure field where
  kind : Int
  ptr : Nat
deriving DecidableEq, Repr

/-- The loop of `readFieldlist` (src/main.go:75), with explicit fuel to
make the recursion structural.  Each iteration reads a kind uvarint,
stops at `fieldKindEol = 0`, and otherwise reads the offset uvarint and
continues.  One unit of fuel is spent per iteration; since every
iteration consumes at least one byte of the source, the wrapper
`readFieldlist` below supplies `s.length + 1` units, so the `fuel = 0`
branch is unreachable from the wrapper. -/
def readFieldlistAux : Nat → Src → Except Err (List field × Src)
  | 0, _ => .error .truncated
  | fuel + 1, s =>
    match readUvarint s with
    | .error e => .error e
    | .ok (t, s1) =>
      if toInt64 t = 0 then .ok ([], s1)
      else
        match readUvarint s1 with
        | .error e => .error e
        | .ok (v, s2) =>
          match readFieldlistAux fuel s2 with
          | .error e => .error e
          | .ok (fields, s3) => .ok (⟨toInt64 t, v⟩ :: fields, s3)

/-- `readFieldlist` (src/main.go:75). -/
def readFieldlist : Src → Except Err (List field × Src) := fun s =>
  readFieldlistAux (s.length + 1) s

/-- A heap object record (src/main.go:93). -/
structure object where
  addr : Nat
  contents : List Nat
  fields : List field
deriving DecidableEq, Repr

/-- `readObject` (src/main.go:99): address, contents, field list. -/
def readObject : Src → Except Err (object × Src) :=
  rbind readUvarint fun addr =>
  rbind readString fun contents =>
  rbind readFieldlist fun fields =>
  rret { addr := addr, contents := contents, fields := fields }

/-- A GC root record (src/main.go:115). -/
structure root where
  descr : List Nat
  ptr : Nat
deriving DecidableEq, Repr

/-- `readOtherRoot` (src/main.go:120): description string, then target
address. -/
def readOtherRoot : Src → Except Err (root × Src) :=
  rbind readString fun descr =>
  rbind readUvarint fun ptr =>
  rret { descr := descr, ptr := ptr }

/-- A type descriptor record (src/main.go:132, Go `type Type`). -/
structure Type' where
  addr : Nat
  size : Nat
  name : List Nat
  isPtr : Bool
deriving DecidableEq, Repr

/-- `readType` (src/main.go:139): address, size, name, then the
pointer-shaped flag decoded as `isptr != 0`. -/
def readType : Src → Except Err (Type' × Src) :=
  rbind readUvarint fun addr =>
  rbind readUvarint fun size =>
  rbind readString fun name =>
  rbind readUvarint fun isptr =>
  rret { addr := addr, size := size, name := name, isPtr := isptr != 0 }

/-- A goroutine record (src/main.go:168).  `status` is Go's
`type status int`, filled through the conversion `status(st)`;
`started` models the `time.Time` built by
`time.Unix(started / time.Second, started % time.Second)`, i.e. the
(seconds, nanoseconds) pair. -/
structure Goroutine where
  addr : Nat
  rframe : Nat
  id : Nat
  stmt : Nat
  status : Int
  isSys : Bool
  isBackground : Bool
  started : Nat × Nat
  waitReason : List Nat
  ctx : Nat
  MThread : Nat
  dfer : Nat
  pnic : Nat
deriving DecidableEq, Repr

/-- `readGoroutine` (src/main.go:184).  Field order and the exact
comparisons are taken from the source: `g.isSys = b != 1` and
`g.isBackground = b != 1`. -/
def readGoroutine : Src → Except Err (Goroutine × Src) :=
  rbind readUvarint fun addr =>
  rbind readUvarint fun rframe =>
  rbind readUvarint fun gid =>
  rbind readUvarint fun stmt =>
  rbind readUvarint fun st =>
  rbind readUvarint fun b1 =>
  rbind readUvarint fun b2 =>
  rbind readUvarint fun started =>
  rbind readString fun waitReason =>
  rbind readUvarint fun ctx =>
  rbind readUvarint fun mthread =>
  rbind readUvarint fun dfer =>
  rbind readUvarint fun pnic =>
  rret { addr := addr, rframe := rframe, id := gid, stmt := stmt,
         status := toInt64 st, isSys := b1 != 1, isBackground := b2 != 1,
         started := (started / 1000000000, started % 1000000000),
         waitReason := waitReason, ctx := ctx, MThread := mthread,
         dfer := dfer, pnic := pnic }

/-- A stack frame record (src/main.go:246). -/
structure stackFrame where
  ptr : Nat
  depth : Nat
  childPtr : Nat
  content : List Nat
  startPC : Nat
  currentPC : Nat
  continuePC : Nat
  name : List Nat
  fields : List field
deriving DecidableEq, Repr

/-- `readStackFrame` (src/main.go:258). -/
def readStackFrame : Src → Except Err (stackFrame × Src) :=
  rbind readUvarint fun ptr =>
  rbind readUvarint fun depth =>
  rbind readUvarint fun childPtr =>
  rbind readString fun content =>
  rbind readUvarint fun startPC =>
  rbind readUvarint fun currentPC =>
  rbind readUvarint fun continuePC =>
  rbind readString fun name =>
  rbind readFieldlist fun fields =>
  rret { ptr := ptr, depth := depth, childPtr := childPtr,
         content := content, startPC := startPC, currentPC := currentPC,
         continuePC := continuePC, name := name, fields := fields }

/-- Canonical little-endian base-128 encoding of `n`, with fuel aligned
to the decoder's 10-byte maximum: 10 units of fuel cover every
`n < 2 ^ 70`, in particular every 64-bit value. -/
def encodeUvarintAux : Nat → Nat → List Nat
  | 0, n => [n]
  | fuel + 1, n =>
    if n < 0x80 then [n] else (n % 0x80 + 0x80) :: encodeUvarintAux fuel (n / 0x80)

/-- Canonical uvarint encoding of a 64-bit value. -/
def encodeUvarint (n : Nat) : List Nat := encodeUvarintAux 10 n

/-- Length-prefixed encoding of a byte string. -/
def encodeString (b : List Nat) : List Nat := encodeUvarint b.length ++ b

/-- Encoding of a field list body: each `(kind, offset)` pair as two
uvarints, in order.  The terminating `End` byte `0` is appended by the
statements that use this. -/
def encodeFields : List (Nat × Nat) → List Nat
  | [] => []
  | (k, v) :: rest => encodeUvarint k ++ encodeUvarint v ++ encodeFields rest

/-- A reader only ever consumes bytes from the front: on success the
leftover source is what follows the consumed prefix, so appending a
suffix to the input appends it untouched to the leftover. -/
def ConsumesPrefix (m : Src → Except Err (α × Src)) : Prop :=
  ∀ E S v E0, m E = .ok (v, E0) → m (E ++ S) = .ok (v, E0 ++ S)

/-- On success the leftover source is a suffix of the input. -/
def LeavesSuffix (m : Src → Except Err (α × Src)) : Prop :=
  ∀ s v s1, m s = .ok (v, s1) → s1 <:+ s

/-- A primitive read (uvarint or length-prefixed string) fails on `s`
with error `e`. -/
def PrimFail (s : Src) (e : Err) : Prop :=
  readUvarint s = .error e ∨ readString s = .error e

/-- Every failure of the reader is the failure of a primitive read,
propagated unchanged: on every input the reader either succeeds, or
returns exactly the error with which some primitive read fails at a
reachable (suffix) position of the input; no record accompanies an
error. -/
def ErrFromPrim (m : Src → Except Err (α × Src)) : Prop :=
  ∀ s, (∃ v s1, m s = .ok (v, s1)) ∨
    ∃ e s1, s1 <:+ s ∧ PrimFail s1 e ∧ m s = .error e

theorem lor_shiftLeft_eq_add {x k : Nat} (n : Nat) (h : x < 2 ^ k) :
    x ||| (n <<< k) = x + n * 2 ^ k := by
  apply Nat.eq_of_testBit_eq
  intro i
  rw [Nat.testBit_or, Nat.testBit_shiftLeft,
    show x + n * 2 ^ k = 2 ^ k * n + x by ring, Nat.testBit_mul_pow_two_add n h i]
  by_cases hik : i < k
  · have : ¬ (i ≥ k) := Nat.not_le.mpr hik
    simp [hik, this]
  · have hge : i ≥ k := Nat.le_of_not_lt hik
    have hx : x < 2 ^ i := Nat.lt_of_lt_of_le h (Nat.pow_le_pow_right (by norm_num) hge)
    simp [hik, hge, Nat.testBit_lt_two_pow hx]

theorem readUvarintLoop_enc (f : Nat) : ∀ x n (rest : Src), f ≤ 9 →
    x < 2 ^ (7 * (9 - f)) → n < 2 * 128 ^ f →
    readUvarintLoop (f + 1) x (7 * (9 - f)) (encodeUvarintAux (f + 1) n ++ rest) =
      .ok (x + n * 2 ^ (7 * (9 - f)), rest) := by
  induction f with
  | zero =>
    intro x n rest _ hx hn
    have hn128 : n < 0x80 := by omega
    simp only [encodeUvarintAux, if_pos hn128, List.cons_append, List.nil_append]
    unfold readUvarintLoop
    rw [if_pos hn128, if_neg (by omega : ¬ (0 = 0 ∧ 1 < n)),
      lor_shiftLeft_eq_add n hx]
    have hlt : x + n * 2 ^ (7 * (9 - 0)) < 2 ^ 64 := by
      have h1 : n * 2 ^ (7 * (9 - 0)) ≤ 1 * 2 ^ (7 * (9 - 0)) :=
        Nat.mul_le_mul_right _ (by omega)
      simp only [Nat.sub_zero] at *
      norm_num at *
      omega
    rw [Nat.mod_eq_of_lt hlt]
  | succ f ih =>
    intro x n rest hf hx hn
    have hsh : 7 * (9 - (f + 1)) + 7 = 7 * (9 - f) := by omega
    have hpow : 2 ^ (7 * (9 - f)) = 2 ^ (7 * (9 - (f + 1))) * 128 := by
      rw [← hsh, pow_add]; norm_num
    by_cases h128 : n < 0x80
    · simp only [encodeUvarintAux, if_pos h128, List.cons_append, List.nil_append]
      unfold readUvarintLoop
      rw [if_pos h128, if_neg (by omega : ¬ (f + 1 = 0 ∧ 1 < n)),
        lor_shiftLeft_eq_add n hx]
      have hlt : x + n * 2 ^ (7 * (9 - (f + 1))) < 2 ^ 64 := by
        have h1 : n * 2 ^ (7 * (9 - (f + 1))) ≤ 127 * 2 ^ (7 * (9 - (f + 1))) :=
          Nat.mul_le_mul_right _ (by omega)
        have h2 : 2 ^ (7 * (9 - (f + 1))) * 128 ≤ 2 ^ 63 := by
          rw [← hpow]
          exact Nat.pow_le_pow_right (by norm_num) (by omega)
        have h3 : (2 : Nat) ^ 63 < 2 ^ 64 := Nat.pow_lt_pow_right (by norm_num) (by omega)
        omega
      rw [Nat.mod_eq_of_lt hlt]
    · have henc : encodeUvarintAux (f + 1 + 1) n
          = (n % 0x80 + 0x80) :: encodeUvarintAux (f + 1) (n / 0x80) := by
        conv_lhs => rw [encodeUvarintAux]
        rw [if_neg h128]
      rw [henc, List.cons_append]
      unfold readUvarintLoop
      rw [if_neg (by omega : ¬ (n % 0x80 + 0x80 < 0x80)),
        (by omega : (n % 0x80 + 0x80) % 0x80 = n % 0x80),
        lor_shiftLeft_eq_add (n % 0x80) hx]
      have hacc : x + n % 0x80 * 2 ^ (7 * (9 - (f + 1))) < 2 ^ (7 * (9 - f)) := by
        have h1 : n % 0x80 * 2 ^ (7 * (9 - (f + 1))) ≤ 127 * 2 ^ (7 * (9 - (f + 1))) :=
          Nat.mul_le_mul_right _ (by omega)
        rw [hpow]
        omega
      have hlt : x + n % 0x80 * 2 ^ (7 * (9 - (f + 1))) < 2 ^ 64 := by
        have h2 : 2 ^ (7 * (9 - f)) ≤ 2 ^ 64 :=
          Nat.pow_le_pow_right (by norm_num) (by omega)
        omega
      rw [Nat.mod_eq_of_lt hlt, hsh,
        ih _ (n / 0x80) rest (by omega) hacc
          (by
            have := Nat.div_lt_iff_lt_mul (show 0 < 0x80 by norm_num)
              (x := n) (y := 2 * 128 ^ f)
            rw [this]
            calc n < 2 * 128 ^ (f + 1) := hn
            _ = 2 * 128 ^ f * 0x80 := by ring)]
      rw [show x + n % 0x80 * 2 ^ (7 * (9 - (f + 1))) + n / 0x80 * 2 ^ (7 * (9 - f))
          = x + n * 2 ^ (7 * (9 - (f + 1))) from by
        rw [hpow]
        conv_rhs => rw [← Nat.mod_add_div n 0x80]
        ring]

theorem readUvarint_enc (n : Nat) (rest : Src) (h : n < 2 ^ 64) :
    readUvarint (encodeUvarint n ++ rest) = .ok (n, rest) := by
  have h2 : n < 2 * 128 ^ 9 := by norm_num at *; omega
  have := readUvarintLoop_enc 9 0 n rest (le_refl 9) (by norm_num) h2
  simpa [readUvarint, encodeUvarint] using this


theorem rbind_ok {m : Src → Except Err (α × Src)} {s s1 : Src} {a : α}
    (k : α → Src → Except Err (β × Src)) (h : m s = .ok (a, s1)) :
    rbind m k s = k a s1 := by
  simp [rbind, h]

theorem rbind_err {m : Src → Except Err (α × Src)} {s : Src} {e : Err}
    (k : α → Src → Except Err (β × Src)) (h : m s = .error e) :
    rbind m k s = .error e := by
  simp [rbind, h]

theorem readFull_append (b rest : Src) : readFull b.length (b ++ rest) = .ok (b, rest) := by
  unfold readFull
  rw [if_pos (by simp), List.take_left, List.drop_left]

theorem readString_enc (b : List Nat) (rest : Src) (h : b.length < 2 ^ 64) :
    readString (encodeString b ++ rest) = .ok (b, rest) := by
  simp only [readString, encodeString, List.append_assoc,
    rbind_ok _ (readUvarint_enc b.length (b ++ rest) h),
    rbind_ok _ (readFull_append b rest), rret]

theorem toInt64_of_lt {n : Nat} (h : n < 2 ^ 63) : toInt64 n = n := if_pos h

theorem toInt64_eq_zero_iff {n : Nat} (h : n < 2 ^ 64) : toInt64 n = 0 ↔ n = 0 := by
  unfold toInt64
  split <;> omega

theorem encodeUvarintAux_length_pos (f n : Nat) : 1 ≤ (encodeUvarintAux f n).length := by
  cases f <;> simp only [encodeUvarintAux] <;> [skip; split] <;> simp

theorem encodeFields_length (fl : List (Nat × Nat)) :
    fl.length ≤ (encodeFields fl).length := by
  induction fl with
  | nil => simp [encodeFields]
  | cons p tl ih =>
    obtain ⟨k, v⟩ := p
    have h1 := encodeUvarintAux_length_pos 10 k
    simp only [encodeFields, List.length_append, List.length_cons, encodeUvarint]
    omega

theorem readFieldlistAux_enc (fl : List (Nat × Nat)) : ∀ (fuel : Nat) (rest : Src),
    fl.length < fuel →
    (∀ p ∈ fl, 0 < p.1 ∧ p.1 < 2 ^ 64 ∧ p.2 < 2 ^ 64) →
    readFieldlistAux fuel (encodeFields fl ++ 0 :: rest) =
      .ok (fl.map fun p => ⟨toInt64 p.1, p.2⟩, rest) := by
  induction fl with
  | nil =>
    intro fuel rest hfuel _
    match fuel, hfuel with
    | fuel + 1, _ =>
      simp only [encodeFields, List.nil_append]
      unfold readFieldlistAux
      rw [show (0 : Nat) :: rest = encodeUvarint 0 ++ rest from rfl,
        readUvarint_enc 0 rest (by norm_num)]
      simp [toInt64]
  | cons p tl ih =>
    intro fuel rest hfuel hb
    obtain ⟨k, v⟩ := p
    match fuel, hfuel with
    | fuel + 1, hfuel2 =>
      have hk := hb (k, v) (by simp)
      simp only at hk
      have hkne : toInt64 k ≠ 0 := fun hz =>
        absurd ((toInt64_eq_zero_iff hk.2.1).mp hz) (by omega)
      simp only [encodeFields, List.append_assoc]
      unfold readFieldlistAux
      rw [readUvarint_enc k _ hk.2.1]
      simp only [if_neg hkne]
      rw [readUvarint_enc v _ hk.2.2]
      dsimp only
      rw [ih fuel rest (by simp only [List.length_cons] at hfuel2; omega)
          (fun q hq => hb q (List.mem_cons_of_mem _ hq))]
      simp

theorem readFieldlistAux_fuel_mono : ∀ (f g : Nat) (s : Src) (v : List field) (s1 : Src),
    f ≤ g → readFieldlistAux f s = .ok (v, s1) → readFieldlistAux g s = .ok (v, s1) := by
  intro f
  induction f with
  | zero => intro g s v s1 _ h; exact absurd h (by simp [readFieldlistAux])
  | succ f ih =>
    intro g s v s1 hfg h
    match g, hfg with
    | g + 1, hfg =>
      unfold readFieldlistAux at h ⊢
      cases h1 : readUvarint s with
      | error e => rw [h1] at h; exact absurd h (by simp)
      | ok p =>
        obtain ⟨t, s2⟩ := p
        rw [h1] at h
        dsimp only at h ⊢
        by_cases ht : toInt64 t = 0
        · rw [if_pos ht] at h ⊢; exact h
        · rw [if_neg ht] at h ⊢
          cases h2 : readUvarint s2 with
          | error e => rw [h2] at h; exact absurd h (by simp)
          | ok q =>
            obtain ⟨w, s3⟩ := q
            rw [h2] at h
            dsimp only at h ⊢
            cases h3 : readFieldlistAux f s3 with
            | error e => rw [h3] at h; exact absurd h (by simp)
            | ok r =>
              obtain ⟨fs, s4⟩ := r
              rw [h3] at h
              rw [ih g s3 fs s4 (Nat.le_of_succ_le_succ hfg) h3]
              exact h

theorem readFieldlist_enc (fl : List (Nat × Nat)) (rest : Src)
    (hb : ∀ p ∈ fl, 0 < p.1 ∧ p.1 < 2 ^ 64 ∧ p.2 < 2 ^ 64) :
    readFieldlist (encodeFields fl ++ 0 :: rest) =
      .ok (fl.map fun p => ⟨toInt64 p.1, p.2⟩, rest) := by
  unfold readFieldlist
  apply readFieldlistAux_fuel_mono (fl.length + 1) _ _ _ _ _
    (readFieldlistAux_enc fl (fl.length + 1) rest (by omega) hb)
  have := encodeFields_length fl
  simp only [List.length_append, List.length_cons]
  omega


theorem rbind_enc_uvarint {k : Nat → Src → Except Err (β × Src)} {n : Nat}
    (h : n < 2 ^ 64) (rest : Src) :
    rbind readUvarint k (encodeUvarint n ++ rest) = k n rest :=
  rbind_ok k (readUvarint_enc n rest h)

theorem rbind_enc_string {k : List Nat → Src → Except Err (β × Src)} {b : List Nat}
    (h : b.length < 2 ^ 64) (rest : Src) :
    rbind readString k (encodeString b ++ rest) = k b rest :=
  rbind_ok k (readString_enc b rest h)

theorem readOtherRoot_spec (d : List Nat) (a : Nat) (rest : Src)
    (hd : d.length < 2 ^ 64) (ha : a < 2 ^ 64) :
    readOtherRoot (encodeString d ++ (encodeUvarint a ++ rest)) =
      .ok ({ descr := d, ptr := a }, rest) := by
  simp only [readOtherRoot, rbind_enc_string hd, rbind_enc_uvarint ha, rret]

theorem readGoroutine_spec (a rf gid stmt st b1 b2 ts ctx mt df pn : Nat)
    (wr : List Nat) (rest : Src)
    (ha : a < 2 ^ 64) (hrf : rf < 2 ^ 64) (hgid : gid < 2 ^ 64) (hstmt : stmt < 2 ^ 64)
    (hst : st < 2 ^ 64) (hb1 : b1 < 2 ^ 64) (hb2 : b2 < 2 ^ 64) (hts : ts < 2 ^ 64)
    (hwr : wr.length < 2 ^ 64) (hctx : ctx < 2 ^ 64) (hmt : mt < 2 ^ 64)
    (hdf : df < 2 ^ 64) (hpn : pn < 2 ^ 64) :
    readGoroutine (encodeUvarint a ++ (encodeUvarint rf ++ (encodeUvarint gid ++
      (encodeUvarint stmt ++ (encodeUvarint st ++ (encodeUvarint b1 ++
      (encodeUvarint b2 ++ (encodeUvarint ts ++ (encodeString wr ++
      (encodeUvarint ctx ++ (encodeUvarint mt ++ (encodeUvarint df ++
      (encodeUvarint pn ++ rest))))))))))))) =
      .ok ({ addr := a, rframe := rf, id := gid, stmt := stmt, status := toInt64 st,
             isSys := b1 != 1, isBackground := b2 != 1,
             started := (ts / 1000000000, ts % 1000000000), waitReason := wr,
             ctx := ctx, MThread := mt, dfer := df, pnic := pn }, rest) := by
  simp only [readGoroutine, rbind_enc_uvarint ha, rbind_enc_uvarint hrf,
    rbind_enc_uvarint hgid, rbind_enc_uvarint hstmt, rbind_enc_uvarint hst,
    rbind_enc_uvarint hb1, rbind_enc_uvarint hb2, rbind_enc_uvarint hts,
    rbind_enc_string hwr, rbind_enc_uvarint hctx, rbind_enc_uvarint hmt,
    rbind_enc_uvarint hdf, rbind_enc_uvarint hpn, rret]

theorem readHeader_badMagic (s : Src) (h1 : header.length ≤ s.length)
    (h2 : s.take header.length ≠ header) : readHeader s = .error .badMagic := by
  unfold readHeader
  rw [if_neg (by omega), if_pos h2]


theorem readUvarintLoop_suffix : ∀ (f x sh : Nat) (s : Src) (v : Nat) (s1 : Src),
    readUvarintLoop f x sh s = .ok (v, s1) → s1 <:+ s ∧ s1.length < s.length := by
  intro f
  induction f with
  | zero => intro x sh s v s1 h; exact absurd h (by simp [readUvarintLoop])
  | succ f ih =>
    intro x sh s v s1 h
    match s with
    | [] => exact absurd h (by simp [readUvarintLoop])
    | b :: rest =>
      unfold readUvarintLoop at h
      by_cases hb : b < 0x80
      · rw [if_pos hb] at h
        by_cases hg : f = 0 ∧ 1 < b
        · rw [if_pos hg] at h; exact absurd h (by simp)
        · rw [if_neg hg] at h
          simp only [Except.ok.injEq, Prod.mk.injEq] at h
          obtain ⟨-, hs⟩ := h
          subst hs
          exact ⟨List.suffix_cons b rest, by simp⟩
      · rw [if_neg hb] at h
        have := ih _ _ _ _ _ h
        refine ⟨this.1.trans (List.suffix_cons b rest), ?_⟩
        have := this.2
        simp only [List.length_cons]
        omega

theorem readUvarint_suffix (s : Src) (v : Nat) (s1 : Src)
    (h : readUvarint s = .ok (v, s1)) : s1 <:+ s ∧ s1.length < s.length :=
  readUvarintLoop_suffix 10 0 0 s v s1 h

theorem readFull_suffix (n : Nat) (s : Src) (v : List Nat) (s1 : Src)
    (h : readFull n s = .ok (v, s1)) : s1 <:+ s ∧ s1.length ≤ s.length := by
  unfold readFull at h
  split at h
  · simp only [Except.ok.injEq, Prod.mk.injEq] at h
    obtain ⟨-, hs⟩ := h
    subst hs
    exact ⟨List.drop_suffix n s, by simp⟩
  · exact absurd h (by simp)

theorem readString_suffix : LeavesSuffix readString := by
  intro s v s1 h
  unfold readString rbind at h
  cases h1 : readUvarint s with
  | error e => rw [h1] at h; exact absurd h (by simp)
  | ok p =>
    obtain ⟨n, s2⟩ := p
    rw [h1] at h
    dsimp only at h
    cases h2 : readFull n s2 with
    | error e => rw [h2] at h; exact absurd h (by simp)
    | ok q =>
      obtain ⟨buf, s3⟩ := q
      rw [h2] at h
      simp only [rret, Except.ok.injEq, Prod.mk.injEq] at h
      obtain ⟨-, hs⟩ := h
      subst hs
      exact (readFull_suffix n s2 buf s3 h2).1.trans (readUvarint_suffix s n s2 h1).1

theorem readString_length_lt (s : Src) (v : List Nat) (s1 : Src)
    (h : readString s = .ok (v, s1)) : s1.length < s.length := by
  unfold readString rbind at h
  cases h1 : readUvarint s with
  | error e => rw [h1] at h; exact absurd h (by simp)
  | ok p =>
    obtain ⟨n, s2⟩ := p
    rw [h1] at h
    dsimp only at h
    cases h2 : readFull n s2 with
    | error e => rw [h2] at h; exact absurd h (by simp)
    | ok q =>
      obtain ⟨buf, s3⟩ := q
      rw [h2] at h
      simp only [rret, Except.ok.injEq, Prod.mk.injEq] at h
      obtain ⟨-, hs⟩ := h
      subst hs
      have := (readFull_suffix n s2 buf s3 h2).2
      have := (readUvarint_suffix s n s2 h1).2
      omega

theorem leavesSuffix_rret (a : α) : LeavesSuffix (rret a) := by
  intro s v s1 h
  simp only [rret, Except.ok.injEq, Prod.mk.injEq] at h
  obtain ⟨-, hs⟩ := h
  subst hs
  exact List.suffix_refl s

theorem leavesSuffix_rbind {m : Src → Except Err (α × Src)}
    {k : α → Src → Except Err (β × Src)} (hm : LeavesSuffix m)
    (hk : ∀ a, LeavesSuffix (k a)) : LeavesSuffix (rbind m k) := by
  intro s v s1 h
  unfold rbind at h
  cases h1 : m s with
  | error e => rw [h1] at h; exact absurd h (by simp)
  | ok p =>
    obtain ⟨a, s2⟩ := p
    rw [h1] at h
    exact (hk a s2 v s1 h).trans (hm s a s2 h1)

theorem leavesSuffix_readUvarint : LeavesSuffix readUvarint :=
  fun s v s1 h => (readUvarint_suffix s v s1 h).1

theorem readFieldlistAux_suffix : ∀ (f : Nat) (s : Src) (v : List field) (s1 : Src),
    readFieldlistAux f s = .ok (v, s1) → s1 <:+ s := by
  intro f
  induction f with
  | zero => intro s v s1 h; exact absurd h (by simp [readFieldlistAux])
  | succ f ih =>
    intro s v s1 h
    unfold readFieldlistAux at h
    cases h1 : readUvarint s with
    | error e => rw [h1] at h; exact absurd h (by simp)
    | ok p =>
      obtain ⟨t, s2⟩ := p
      rw [h1] at h
      dsimp only at h
      by_cases ht : toInt64 t = 0
      · rw [if_pos ht] at h
        simp only [Except.ok.injEq, Prod.mk.injEq] at h
        obtain ⟨-, hs⟩ := h
        subst hs
        exact (readUvarint_suffix s t s2 h1).1
      · rw [if_neg ht] at h
        cases h2 : readUvarint s2 with
        | error e => rw [h2] at h; exact absurd h (by simp)
        | ok q =>
          obtain ⟨w, s3⟩ := q
          rw [h2] at h
          dsimp only at h
          cases h3 : readFieldlistAux f s3 with
          | error e => rw [h3] at h; exact absurd h (by simp)
          | ok r =>
            obtain ⟨fs, s4⟩ := r
            rw [h3] at h
            simp only [Except.ok.injEq, Prod.mk.injEq] at h
            obtain ⟨-, hs⟩ := h
            subst hs
            exact ((ih s3 fs s4 h3).trans (readUvarint_suffix s2 w s3 h2).1).trans
              (readUvarint_suffix s t s2 h1).1

theorem leavesSuffix_readFieldlist : LeavesSuffix readFieldlist :=
  fun s v s1 h => readFieldlistAux_suffix (s.length + 1) s v s1 h


theorem errFromPrim_rret (a : α) : ErrFromPrim (rret a) :=
  fun s => .inl ⟨a, s, rfl⟩

theorem errFromPrim_rbind {m : Src → Except Err (α × Src)}
    {k : α → Src → Except Err (β × Src)} (hm : ErrFromPrim m)
    (hms : LeavesSuffix m) (hk : ∀ a, ErrFromPrim (k a)) :
    ErrFromPrim (rbind m k) := by
  intro s
  rcases hm s with ⟨v, s1, hok⟩ | ⟨e, s1, hsfx, hprim, herr⟩
  · rcases hk v s1 with ⟨w, s2, hok2⟩ | ⟨e, s2, hsfx2, hprim2, herr2⟩
    · exact .inl ⟨w, s2, by rw [rbind_ok _ hok]; exact hok2⟩
    · exact .inr ⟨e, s2, hsfx2.trans (hms s v s1 hok), hprim2,
        by rw [rbind_ok _ hok]; exact herr2⟩
  · exact .inr ⟨e, s1, hsfx, hprim, rbind_err _ herr⟩

theorem errFromPrim_readUvarint : ErrFromPrim readUvarint := by
  intro s
  cases h : readUvarint s with
  | ok p => exact .inl ⟨p.1, p.2, by rw [Prod.mk.eta]⟩
  | error e => exact .inr ⟨e, s, List.suffix_refl s, .inl h, rfl⟩

theorem errFromPrim_readString : ErrFromPrim readString := by
  intro s
  cases h : readString s with
  | ok p => exact .inl ⟨p.1, p.2, by rw [Prod.mk.eta]⟩
  | error e => exact .inr ⟨e, s, List.suffix_refl s, .inr h, rfl⟩

theorem readFieldlistAux_errFromPrim : ∀ (f : Nat) (s : Src), s.length < f →
    (∃ v s1, readFieldlistAux f s = .ok (v, s1)) ∨
      ∃ e s1, s1 <:+ s ∧ PrimFail s1 e ∧ readFieldlistAux f s = .error e := by
  intro f
  induction f with
  | zero => intro s h; omega
  | succ f ih =>
    intro s hlen
    unfold readFieldlistAux
    cases h1 : readUvarint s with
    | error e => exact .inr ⟨e, s, List.suffix_refl s, .inl h1, rfl⟩
    | ok p =>
      obtain ⟨t, s2⟩ := p
      dsimp only
      by_cases ht : toInt64 t = 0
      · rw [if_pos ht]
        exact .inl ⟨[], s2, rfl⟩
      · rw [if_neg ht]
        have hsfx1 := readUvarint_suffix s t s2 h1
        cases h2 : readUvarint s2 with
        | error e => exact .inr ⟨e, s2, hsfx1.1, .inl h2, rfl⟩
        | ok q =>
          obtain ⟨w, s3⟩ := q
          dsimp only
          have hsfx2 := readUvarint_suffix s2 w s3 h2
          rcases ih s3 (by omega) with ⟨v, s4, hok⟩ | ⟨e, s4, hsfx, hprim, herr⟩
          · rw [hok]
            exact .inl ⟨⟨toInt64 t, w⟩ :: v, s4, rfl⟩
          · rw [herr]
            exact .inr ⟨e, s4, (hsfx.trans hsfx2.1).trans hsfx1.1, hprim, rfl⟩

theorem errFromPrim_readFieldlist : ErrFromPrim readFieldlist :=
  fun s => readFieldlistAux_errFromPrim (s.length + 1) s (by omega)

theorem errFromPrim_readObject : ErrFromPrim readObject :=
  errFromPrim_rbind errFromPrim_readUvarint leavesSuffix_readUvarint fun _ =>
  errFromPrim_rbind errFromPrim_readString readString_suffix fun _ =>
  errFromPrim_rbind errFromPrim_readFieldlist leavesSuffix_readFieldlist fun _ =>
  errFromPrim_rret _

theorem errFromPrim_readOtherRoot : ErrFromPrim readOtherRoot :=
  errFromPrim_rbind errFromPrim_readString readString_suffix fun _ =>
  errFromPrim_rbind errFromPrim_readUvarint leavesSuffix_readUvarint fun _ =>
  errFromPrim_rret _

theorem errFromPrim_readType : ErrFromPrim readType :=
  errFromPrim_rbind errFromPrim_readUvarint leavesSuffix_readUvarint fun _ =>
  errFromPrim_rbind errFromPrim_readUvarint leavesSuffix_readUvarint fun _ =>
  errFromPrim_rbind errFromPrim_readString readString_suffix fun _ =>
  errFromPrim_rbind errFromPrim_readUvarint leavesSuffix_readUvarint fun _ =>
  errFromPrim_rret _

theorem errFromPrim_readGoroutine : ErrFromPrim readGoroutine :=
  errFromPrim_rbind errFromPrim_readUvarint leavesSuffix_readUvarint fun _ =>
  errFromPrim_rbind errFromPrim_readUvarint leavesSuffix_readUvarint fun _ =>
  errFromPrim_rbind errFromPrim_readUvarint leavesSuffix_readUvarint fun _ =>
  errFromPrim_rbind errFromPrim_readUvarint leavesSuffix_readUvarint fun _ =>
  errFromPrim_rbind errFromPrim_readUvarint leavesSuffix_readUvarint fun _ =>
  errFromPrim_rbind errFromPrim_readUvarint leavesSuffix_readUvarint fun _ =>
  errFromPrim_rbind errFromPrim_readUvarint leavesSuffix_readUvarint fun _ =>
  errFromPrim_rbind errFromPrim_readUvarint leavesSuffix_readUvarint fun _ =>
  errFromPrim_rbind errFromPrim_readString readString_suffix fun _ =>
  errFromPrim_rbind errFromPrim_readUvarint leavesSuffix_readUvarint fun _ =>
  errFromPrim_rbind errFromPrim_readUvarint leavesSuffix_readUvarint fun _ =>
  errFromPrim_rbind errFromPrim_readUvarint leavesSuffix_readUvarint fun _ =>
  errFromPrim_rbind errFromPrim_readUvarint leavesSuffix_readUvarint fun _ =>
  errFromPrim_rret _

theorem errFromPrim_readStackFrame : ErrFromPrim readStackFrame :=
  errFromPrim_rbind errFromPrim_readUvarint leavesSuffix_readUvarint fun _ =>
  errFromPrim_rbind errFromPrim_readUvarint leavesSuffix_readUvarint fun _ =>
  errFromPrim_rbind errFromPrim_readUvarint leavesSuffix_readUvarint fun _ =>
  errFromPrim_rbind errFromPrim_readString readString_suffix fun _ =>
  errFromPrim_rbind errFromPrim_readUvarint leavesSuffix_readUvarint fun _ =>
  errFromPrim_rbind errFromPrim_readUvarint leavesSuffix_readUvarint fun _ =>
  errFromPrim_rbind errFromPrim_readUvarint leavesSuffix_readUvarint fun _ =>
  errFromPrim_rbind errFromPrim_readString readString_suffix fun _ =>
  errFromPrim_rbind errFromPrim_readFieldlist leavesSuffix_readFieldlist fun _ =>
  errFromPrim_rret _


theorem consumesPrefix_rret (a : α) : ConsumesPrefix (rret a) := by
  intro E S v E0 h
  simp only [rret, Except.ok.injEq, Prod.mk.injEq] at h
  obtain ⟨hv, hs⟩ := h
  subst hv; subst hs
  rfl

theorem consumesPrefix_rbind {m : Src → Except Err (α × Src)}
    {k : α → Src → Except Err (β × Src)} (hm : ConsumesPrefix m)
    (hk : ∀ a, ConsumesPrefix (k a)) : ConsumesPrefix (rbind m k) := by
  intro E S v E0 h
  unfold rbind at h ⊢
  cases h1 : m E with
  | error e => rw [h1] at h; exact absurd h (by simp)
  | ok p =>
    obtain ⟨a, s2⟩ := p
    rw [h1] at h
    rw [hm E S a s2 h1]
    exact hk a s2 S v E0 h

theorem consumesPrefix_readUvarintLoop : ∀ (f x sh : Nat),
    ConsumesPrefix (readUvarintLoop f x sh) := by
  intro f
  induction f with
  | zero => intro x sh E S v E0 h; exact absurd h (by simp [readUvarintLoop])
  | succ f ih =>
    intro x sh E S v E0 h
    match E with
    | [] => exact absurd h (by simp [readUvarintLoop])
    | b :: rest =>
      rw [List.cons_append]
      unfold readUvarintLoop at h ⊢
      by_cases hb : b < 0x80
      · rw [if_pos hb] at h ⊢
        by_cases hg : f = 0 ∧ 1 < b
        · rw [if_pos hg] at h; exact absurd h (by simp)
        · rw [if_neg hg] at h ⊢
          simp only [Except.ok.injEq, Prod.mk.injEq] at h
          obtain ⟨hv, hs⟩ := h
          subst hv; subst hs
          rfl
      · rw [if_neg hb] at h ⊢
        exact ih _ _ rest S v E0 h

theorem consumesPrefix_readUvarint : ConsumesPrefix readUvarint :=
  consumesPrefix_readUvarintLoop 10 0 0

theorem consumesPrefix_readFull (n : Nat) : ConsumesPrefix (readFull n) := by
  intro E S v E0 h
  unfold readFull at h ⊢
  split at h
  · simp only [Except.ok.injEq, Prod.mk.injEq] at h
    obtain ⟨hv, hs⟩ := h
    subst hv; subst hs
    rw [if_pos (by simp; omega)]
    congr 2
    · rw [List.take_append_eq_append_take, Nat.sub_eq_zero_of_le (by omega),
        List.take_zero, List.append_nil]
    · rw [List.drop_append_eq_append_drop, Nat.sub_eq_zero_of_le (by omega),
        List.drop_zero]
  · exact absurd h (by simp)

theorem consumesPrefix_readString : ConsumesPrefix readString := by
  unfold readString
  exact consumesPrefix_rbind consumesPrefix_readUvarint fun n =>
    consumesPrefix_rbind (consumesPrefix_readFull n) fun buf =>
    consumesPrefix_rret buf

theorem consumesPrefix_readFieldlistAux : ∀ (f : Nat),
    ConsumesPrefix (readFieldlistAux f) := by
  intro f
  induction f with
  | zero => intro E S v E0 h; exact absurd h (by simp [readFieldlistAux])
  | succ f ih =>
    intro E S v E0 h
    unfold readFieldlistAux at h ⊢
    cases h1 : readUvarint E with
    | error e => rw [h1] at h; exact absurd h (by simp)
    | ok p =>
      obtain ⟨t, s2⟩ := p
      rw [h1] at h
      rw [consumesPrefix_readUvarint E S t s2 h1]
      dsimp only at h ⊢
      by_cases ht : toInt64 t = 0
      · rw [if_pos ht] at h ⊢
        simp only [Except.ok.injEq, Prod.mk.injEq] at h
        obtain ⟨hv, hs⟩ := h
        subst hv; subst hs
        rfl
      · rw [if_neg ht] at h ⊢
        cases h2 : readUvarint s2 with
        | error e => rw [h2] at h; exact absurd h (by simp)
        | ok q =>
          obtain ⟨w, s3⟩ := q
          rw [h2] at h
          rw [consumesPrefix_readUvarint s2 S w s3 h2]
          dsimp only at h ⊢
          cases h3 : readFieldlistAux f s3 with
          | error e => rw [h3] at h; exact absurd h (by simp)
          | ok r =>
            obtain ⟨fs, s4⟩ := r
            rw [h3] at h
            rw [ih s3 S fs s4 h3]
            simp only [Except.ok.injEq, Prod.mk.injEq] at h
            obtain ⟨hv, hs⟩ := h
            subst hv; subst hs
            rfl

theorem consumesPrefix_readFieldlist : ConsumesPrefix readFieldlist := by
  intro E S v E0 h
  unfold readFieldlist at h ⊢
  exact readFieldlistAux_fuel_mono (E.length + 1) ((E ++ S).length + 1) (E ++ S) v (E0 ++ S)
    (by simp) (consumesPrefix_readFieldlistAux (E.length + 1) E S v E0 h)

theorem consumesPrefix_readObject : ConsumesPrefix readObject :=
  consumesPrefix_rbind consumesPrefix_readUvarint fun _ =>
  consumesPrefix_rbind consumesPrefix_readString fun _ =>
  consumesPrefix_rbind consumesPrefix_readFieldlist fun _ =>
  consumesPrefix_rret _

theorem consumesPrefix_readOtherRoot : ConsumesPrefix readOtherRoot :=
  consumesPrefix_rbind consumesPrefix_readString fun _ =>
  consumesPrefix_rbind consumesPrefix_readUvarint fun _ =>
  consumesPrefix_rret _

theorem consumesPrefix_readType : ConsumesPrefix readType :=
  consumesPrefix_rbind consumesPrefix_readUvarint fun _ =>
  consumesPrefix_rbind consumesPrefix_readUvarint fun _ =>
  consumesPrefix_rbind consumesPrefix_readString fun _ =>
  consumesPrefix_rbind consumesPrefix_readUvarint fun _ =>
  consumesPrefix_rret _

theorem consumesPrefix_readGoroutine : ConsumesPrefix readGoroutine :=
  consumesPrefix_rbind consumesPrefix_readUvarint fun _ =>
  consumesPrefix_rbind consumesPrefix_readUvarint fun _ =>
  consumesPrefix_rbind consumesPrefix_readUvarint fun _ =>
  consumesPrefix_rbind consumesPrefix_readUvarint fun _ =>
  consumesPrefix_rbind consumesPrefix_readUvarint fun _ =>
  consumesPrefix_rbind consumesPrefix_readUvarint fun _ =>
  consumesPrefix_rbind consumesPrefix_readUvarint fun _ =>
  consumesPrefix_rbind consumesPrefix_readUvarint fun _ =>
  consumesPrefix_rbind consumesPrefix_readString fun _ =>
  consumesPrefix_rbind consumesPrefix_readUvarint fun _ =>
  consumesPrefix_rbind consumesPrefix_readUvarint fun _ =>
  consumesPrefix_rbind consumesPrefix_readUvarint fun _ =>
  consumesPrefix_rbind consumesPrefix_readUvarint fun _ =>
  consumesPrefix_rret _

theorem consumesPrefix_readStackFrame : ConsumesPrefix readStackFrame :=
  consumesPrefix_rbind consumesPrefix_readUvarint fun _ =>
  consumesPrefix_rbind consumesPrefix_readUvarint fun _ =>
  consumesPrefix_rbind consumesPrefix_readUvarint fun _ =>
  consumesPrefix_rbind consumesPrefix_readString fun _ =>
  consumesPrefix_rbind consumesPrefix_readUvarint fun _ =>
  consumesPrefix_rbind consumesPrefix_readUvarint fun _ =>
  consumesPrefix_rbind consumesPrefix_readUvarint fun _ =>
  consumesPrefix_rbind consumesPrefix_readString fun _ =>
  consumesPrefix_rbind consumesPrefix_readFieldlist fun _ =>
  consumesPrefix_rret _


/-! ## Claims -/

/-- Claim C1: the spec demands that a byte source with fewer than 16 bytes
(the magic length) make `readHeader` fail with `Truncated`; the code
instead returns success (`return nil` after a failed `io.ReadFull`), as
these concrete short inputs show.  This is the defect the spec flags in
its design notes. -/
theorem readHeader_accepts_short_input :
    readHeader [] = .ok ((), []) ∧
    readHeader (List.replicate 15 0x67) = .ok ((), []) := by decide

/-- Claim C2: the spec's boolean policy says `isSys`/`isBackground` are
true iff the raw uvarint equals 1; the code computes `b != 1`, so a raw
value of 1 decodes to `false` and raw values 0 and 2 decode to `true` —
the exact inversion, shown here on two concrete goroutine records. -/
theorem readGoroutine_flag_decoding_inverted :
    readGoroutine [0, 0, 0, 0, 0, 1, 1, 0, 0, 0, 0, 0, 0] =
      .ok ({ addr := 0, rframe := 0, id := 0, stmt := 0, status := 0, isSys := false,
             isBackground := false, started := (0, 0), waitReason := [], ctx := 0,
             MThread := 0, dfer := 0, pnic := 0 }, []) ∧
    readGoroutine [0, 0, 0, 0, 0, 0, 2, 0, 0, 0, 0, 0, 0] =
      .ok ({ addr := 0, rframe := 0, id := 0, stmt := 0, status := 0, isSys := true,
             isBackground := true, started := (0, 0), waitReason := [], ctx := 0,
             MThread := 0, dfer := 0, pnic := 0 }, []) := by decide

/-- Claim C3, counterexample: the round-trip is not exact for every
nonzero kind.  The kind `2 ^ 63` is a valid uvarint, but `fieldKind(t)`
converts it to a signed `int`, so it comes back as `-(2 ^ 63)`, not as
the encoded kind. -/
theorem readFieldlist_kind_wrap_counterexample :
    readFieldlist (encodeFields [(2 ^ 63, 0)] ++ [0]) =
      .ok ([{ kind := -(2 ^ 63 : Int), ptr := 0 }], []) ∧
    readFieldlist (encodeFields [(2 ^ 63, 0)] ++ [0]) ≠
      .ok ([{ kind := ((2 ^ 63 : Nat) : Int), ptr := 0 }], []) := by decide

/-- Claim C3 (amended): for every finite sequence of `(kind, offset)`
pairs — including the empty one — whose kinds are nonzero and below
`2 ^ 63` (the positive signed-64-bit range) and whose offsets are 64-bit
values, encoding each pair as two uvarints followed by a single `End`
(0) uvarint and decoding with `readFieldlist` succeeds and returns
exactly that sequence in order, consuming the `End` marker without
retaining it.  (Kinds in `[2 ^ 63, 2 ^ 64)` are stored wrapped to
negative signed values, breaking exactness — see the counterexample.) -/
theorem readFieldlist_roundtrip (fl : List (Nat × Nat)) (rest : Src)
    (hb : ∀ p ∈ fl, 0 < p.1 ∧ p.1 < 2 ^ 63 ∧ p.2 < 2 ^ 64) :
    readFieldlist (encodeFields fl ++ 0 :: rest) =
      .ok (fl.map fun p => { kind := (p.1 : Int), ptr := p.2 }, rest) := by
  have hmap : (fl.map fun p => ({ kind := toInt64 p.1, ptr := p.2 } : field)) =
      fl.map fun p => { kind := (p.1 : Int), ptr := p.2 } := by
    apply List.map_congr_left
    intro p hp
    rw [toInt64_of_lt (hb p hp).2.1]
  rw [readFieldlist_enc fl rest (fun p hp =>
    ⟨(hb p hp).1, lt_trans (hb p hp).2.1 (by norm_num), (hb p hp).2.2⟩), hmap]

/-- Witness for C3's amended round-trip at a two-element list. -/
theorem readFieldlist_roundtrip_witness :
    readFieldlist (encodeFields [(1, 5), (3, 2)] ++ 0 :: [9]) =
      .ok ([{ kind := ((1 : Nat) : Int), ptr := 5 },
            { kind := ((3 : Nat) : Int), ptr := 2 }], [9]) :=
  readFieldlist_roundtrip [(1, 5), (3, 2)] [9] (by decide)

/-- Claim C4: for every byte sequence `b` (including the empty one),
encoding `b` as a uvarint length followed by the bytes of `b` and
decoding with `readString` yields `b` exactly, consuming nothing beyond
the declared length (the arbitrary suffix `rest` is left untouched). -/
theorem readString_roundtrip (b : List Nat) (rest : Src) (h : b.length < 2 ^ 64) :
    readString (encodeString b ++ rest) = .ok (b, rest) :=
  readString_enc b rest h

/-- Witness for C4 at a concrete byte string and suffix. -/
theorem readString_roundtrip_witness :
    readString (encodeString [10, 200, 30] ++ [7, 8]) = .ok ([10, 200, 30], [7, 8]) :=
  readString_roundtrip [10, 200, 30] [7, 8] (by decide)

/-- Claim C5: every record decoder propagates a failing primitive read
immediately: on every input each decoder either succeeds, or returns
exactly the error with which a primitive read (uvarint or
length-prefixed string) fails at a reachable position of the input — and
in the error case no record value accompanies the result. -/
theorem record_decoders_error_propagation :
    ErrFromPrim readObject ∧ ErrFromPrim readOtherRoot ∧ ErrFromPrim readType ∧
    ErrFromPrim readGoroutine ∧ ErrFromPrim readStackFrame ∧ ErrFromPrim readFieldlist :=
  ⟨errFromPrim_readObject, errFromPrim_readOtherRoot, errFromPrim_readType,
   errFromPrim_readGoroutine, errFromPrim_readStackFrame, errFromPrim_readFieldlist⟩

/-- Claim C6: every source whose first 16 bytes are present but differ
from the magic literal makes `readHeader` fail with `badMagic`. -/
theorem readHeader_rejects_bad_magic (s : Src) (h1 : header.length ≤ s.length)
    (h2 : s.take header.length ≠ header) : readHeader s = .error .badMagic :=
  readHeader_badMagic s h1 h2

/-- Witness for C6 at a 16-byte source of `0x58` bytes. -/
theorem readHeader_rejects_bad_magic_witness :
    readHeader (List.replicate 16 0x58) = .error .badMagic :=
  readHeader_rejects_bad_magic (List.replicate 16 0x58) (by decide) (by decide)

/-- Claim C7, counterexample: the raw status uvarint `2 ^ 63` is not
rejected, but it is not stored as-is either: `status(st)` converts it to
a signed `int`, so the stored status is `-(2 ^ 63)`, which differs from
the raw decoded value. -/
theorem readGoroutine_status_wrap_counterexample :
    readGoroutine ([0, 0, 0, 0] ++ encodeUvarint (2 ^ 63) ++ [0, 0, 0, 0, 0, 0, 0, 0]) =
      .ok ({ addr := 0, rframe := 0, id := 0, stmt := 0, status := -(2 ^ 63),
             isSys := true, isBackground := true, started := (0, 0), waitReason := [],
             ctx := 0, MThread := 0, dfer := 0, pnic := 0 }, []) ∧
    (-(2 ^ 63) : Int) ≠ ((2 ^ 63 : Nat) : Int) := by decide

/-- Claim C7 (amended): `readGoroutine` accepts every raw status uvarint,
including values outside `{0, 1, 2, 3}`, without rejecting it; the stored
status is the raw value converted to a signed 64-bit integer
(`toInt64`), which equals the raw value exactly when it is below
`2 ^ 63`. -/
theorem readGoroutine_status_preserved (a rf gid stmt st b1 b2 ts ctx mt df pn : Nat)
    (wr : List Nat) (rest : Src)
    (ha : a < 2 ^ 64) (hrf : rf < 2 ^ 64) (hgid : gid < 2 ^ 64) (hstmt : stmt < 2 ^ 64)
    (hst : st < 2 ^ 64) (hb1 : b1 < 2 ^ 64) (hb2 : b2 < 2 ^ 64) (hts : ts < 2 ^ 64)
    (hwr : wr.length < 2 ^ 64) (hctx : ctx < 2 ^ 64) (hmt : mt < 2 ^ 64)
    (hdf : df < 2 ^ 64) (hpn : pn < 2 ^ 64) :
    ∃ g : Goroutine,
      readGoroutine (encodeUvarint a ++ (encodeUvarint rf ++ (encodeUvarint gid ++
        (encodeUvarint stmt ++ (encodeUvarint st ++ (encodeUvarint b1 ++
        (encodeUvarint b2 ++ (encodeUvarint ts ++ (encodeString wr ++
        (encodeUvarint ctx ++ (encodeUvarint mt ++ (encodeUvarint df ++
        (encodeUvarint pn ++ rest))))))))))))) = .ok (g, rest) ∧
      g.status = toInt64 st ∧ (st < 2 ^ 63 → g.status = (st : Int)) :=
  ⟨_, readGoroutine_spec a rf gid stmt st b1 b2 ts ctx mt df pn wr rest ha hrf hgid
      hstmt hst hb1 hb2 hts hwr hctx hmt hdf hpn, rfl,
    fun hlt => toInt64_of_lt hlt⟩

/-- Witness for C7's amended claim at the out-of-range status value 9. -/
theorem readGoroutine_status_preserved_witness :
    ∃ g : Goroutine,
      readGoroutine (encodeUvarint 0 ++ (encodeUvarint 0 ++ (encodeUvarint 0 ++
        (encodeUvarint 0 ++ (encodeUvarint 9 ++ (encodeUvarint 0 ++
        (encodeUvarint 0 ++ (encodeUvarint 0 ++ (encodeString [] ++
        (encodeUvarint 0 ++ (encodeUvarint 0 ++ (encodeUvarint 0 ++
        (encodeUvarint 0 ++ []))))))))))))) = .ok (g, []) ∧
      g.status = toInt64 9 ∧ (9 < 2 ^ 63 → g.status = ((9 : Nat) : Int)) :=
  readGoroutine_status_preserved 0 0 0 0 9 0 0 0 0 0 0 0 [] []
    (by decide) (by decide) (by decide) (by decide) (by decide) (by decide) (by decide)
    (by decide) (by decide) (by decide) (by decide) (by decide) (by decide)

/-- Claim C8: `readOtherRoot` reads the length-prefixed description
first and the target address uvarint second, and returns exactly
`root { descr := d, ptr := a }`. -/
theorem readOtherRoot_descr_then_ptr (d : List Nat) (a : Nat) (rest : Src)
    (hd : d.length < 2 ^ 64) (ha : a < 2 ^ 64) :
    readOtherRoot (encodeString d ++ (encodeUvarint a ++ rest)) =
      .ok ({ descr := d, ptr := a }, rest) :=
  readOtherRoot_spec d a rest hd ha

/-- Witness for C8 at the spec's concrete instance: description
`"runtime.m0"` and address `0x1000`. -/
theorem readOtherRoot_descr_then_ptr_witness :
    readOtherRoot (encodeString [0x72, 0x75, 0x6e, 0x74, 0x69, 0x6d, 0x65, 0x2e, 0x6d, 0x30]
        ++ (encodeUvarint 0x1000 ++ [])) =
      .ok ({ descr := [0x72, 0x75, 0x6e, 0x74, 0x69, 0x6d, 0x65, 0x2e, 0x6d, 0x30],
             ptr := 0x1000 }, []) :=
  readOtherRoot_descr_then_ptr [0x72, 0x75, 0x6e, 0x74, 0x69, 0x6d, 0x65, 0x2e, 0x6d, 0x30]
    0x1000 [] (by decide) (by decide)

/-- Claim C9: the stored start time of a decoded goroutine is the raw
start uvarint `ts` split as whole seconds `ts / 1000000000` and
nanosecond remainder `ts % 1000000000`. -/
theorem readGoroutine_started_split (a rf gid stmt st b1 b2 ts ctx mt df pn : Nat)
    (wr : List Nat) (rest : Src)
    (ha : a < 2 ^ 64) (hrf : rf < 2 ^ 64) (hgid : gid < 2 ^ 64) (hstmt : stmt < 2 ^ 64)
    (hst : st < 2 ^ 64) (hb1 : b1 < 2 ^ 64) (hb2 : b2 < 2 ^ 64) (hts : ts < 2 ^ 64)
    (hwr : wr.length < 2 ^ 64) (hctx : ctx < 2 ^ 64) (hmt : mt < 2 ^ 64)
    (hdf : df < 2 ^ 64) (hpn : pn < 2 ^ 64) :
    ∃ g : Goroutine,
      readGoroutine (encodeUvarint a ++ (encodeUvarint rf ++ (encodeUvarint gid ++
        (encodeUvarint stmt ++ (encodeUvarint st ++ (encodeUvarint b1 ++
        (encodeUvarint b2 ++ (encodeUvarint ts ++ (encodeString wr ++
        (encodeUvarint ctx ++ (encodeUvarint mt ++ (encodeUvarint df ++
        (encodeUvarint pn ++ rest))))))))))))) = .ok (g, rest) ∧
      g.started = (ts / 1000000000, ts % 1000000000) :=
  ⟨_, readGoroutine_spec a rf gid stmt st b1 b2 ts ctx mt df pn wr rest ha hrf hgid
      hstmt hst hb1 hb2 hts hwr hctx hmt hdf hpn, rfl⟩

/-- Witness for C9 at the start timestamp 5000000007 (5 s, 7 ns). -/
theorem readGoroutine_started_split_witness :
    ∃ g : Goroutine,
      readGoroutine (encodeUvarint 0 ++ (encodeUvarint 0 ++ (encodeUvarint 0 ++
        (encodeUvarint 0 ++ (encodeUvarint 0 ++ (encodeUvarint 0 ++
        (encodeUvarint 0 ++ (encodeUvarint 5000000007 ++ (encodeString [] ++
        (encodeUvarint 0 ++ (encodeUvarint 0 ++ (encodeUvarint 0 ++
        (encodeUvarint 0 ++ []))))))))))))) = .ok (g, []) ∧
      g.started = (5000000007 / 1000000000, 5000000007 % 1000000000) :=
  readGoroutine_started_split 0 0 0 0 0 0 0 5000000007 0 0 0 0 [] []
    (by decide) (by decide) (by decide) (by decide) (by decide) (by decide) (by decide)
    (by decide) (by decide) (by decide) (by decide) (by decide) (by decide)

/-- Claim C10: every record decoder consumes exactly the bytes of the
record's encoding: if a decoder consumes an input `E` entirely
(leftover `[]`), then on `E ++ S` it succeeds with the same record and
leaves all of `S` unconsumed. -/
theorem decoders_consume_exact_encoding :
    (∀ E S v, readString E = .ok (v, []) → readString (E ++ S) = .ok (v, S)) ∧
    (∀ E S v, readFieldlist E = .ok (v, []) → readFieldlist (E ++ S) = .ok (v, S)) ∧
    (∀ E S v, readObject E = .ok (v, []) → readObject (E ++ S) = .ok (v, S)) ∧
    (∀ E S v, readOtherRoot E = .ok (v, []) → readOtherRoot (E ++ S) = .ok (v, S)) ∧
    (∀ E S v, readType E = .ok (v, []) → readType (E ++ S) = .ok (v, S)) ∧
    (∀ E S v, readGoroutine E = .ok (v, []) → readGoroutine (E ++ S) = .ok (v, S)) ∧
    (∀ E S v, readStackFrame E = .ok (v, []) → readStackFrame (E ++ S) = .ok (v, S)) :=
  ⟨fun E S v h => by simpa using consumesPrefix_readString E S v [] h,
   fun E S v h => by simpa using consumesPrefix_readFieldlist E S v [] h,
   fun E S v h => by simpa using consumesPrefix_readObject E S v [] h,
   fun E S v h => by simpa using consumesPrefix_readOtherRoot E S v [] h,
   fun E S v h => by simpa using consumesPrefix_readType E S v [] h,
   fun E S v h => by simpa using consumesPrefix_readGoroutine E S v [] h,
   fun E S v h => by simpa using consumesPrefix_readStackFrame E S v [] h⟩

/-- Witness for C10 on three concrete fully-consumed encodings. -/
theorem decoders_consume_exact_encoding_witness :
    readString ([0] ++ [5]) = .ok ([], [5]) ∧
    readFieldlist ([0] ++ [7]) = .ok ([], [7]) ∧
    readObject ([0, 0, 0] ++ [9]) = .ok ({ addr := 0, contents := [], fields := [] }, [9]) :=
  ⟨decoders_consume_exact_encoding.1 [0] [5] [] (by decide),
   decoders_consume_exact_encoding.2.1 [0] [7] [] (by decide),
   decoders_consume_exact_encoding.2.2.1 [0, 0, 0] [9]
     { addr := 0, contents := [], fields := [] } (by decide)⟩

end Hdump
